import Mathlib

/-!
Verification development for the replication control plane of
`StorageReplicatedMergeTree` (file `dbms/src/Storages/StorageReplicatedMergeTree.cpp`).

Strings are modelled as `List Char` (byte strings).  Fallible parsing code
(`assertString` / `readString` driven readers, which throw on mismatch) is
modelled with `Option`: `none` is the thrown exception.  Machine integers
(`UInt64` block numbers) are `Nat` with explicit reduction modulo `2 ^ 64`
where the source performs `UInt64` arithmetic.
-/

set_option maxHeartbeats 1000000

namespace SRMT

/-- The two kinds of replication log entries (`LogEntry::Type` in the source). -/
inductive EntryType where
  | GET_PART
  | MERGE_PARTS
deriving DecidableEq, Repr

/-- A replication log entry (`StorageReplicatedMergeTree::LogEntry`).
The transient fields (`znode_name`, taggers) are not part of the text codec
and are omitted here; `znode_name` plays no role in the verified claims. -/
structure LogEntry where
  type : EntryType
  source_replica : List Char
  new_part_name : List Char
  parts_to_merge : List (List Char)
deriving DecidableEq, Repr

/-- Result of `LogEntry::readText`: the source default-constructs a `LogEntry`
and assigns its fields while parsing.  When the kind line is neither `get` nor
`merge`, the source never assigns `type` (it stays indeterminate), which we
model as `none`. -/
structure ParsedLogEntry where
  type : Option EntryType
  source_replica : List Char
  new_part_name : List Char
  parts_to_merge : List (List Char)
deriving DecidableEq, Repr

/-- `assertString pat`: consume exactly `pat` from the input or fail
(models `DB::assertString`, which throws on mismatch). -/
def expect : List Char → List Char → Option (List Char)
  | [], rest => some rest
  | _ :: _, [] => none
  | p :: ps, c :: cs => if c = p then expect ps cs else none

/-- `DB::readString`: read characters up to (not including) the next newline
or end of input. Returns the line and the unconsumed remainder. -/
def readLine (s : List Char) : List Char × List Char :=
  (s.takeWhile (fun c => !(c == '\n')), s.dropWhile (fun c => !(c == '\n')))

def strGet : List Char := "get".toList
def strMerge : List Char := "merge".toList
def strInto : List Char := "into".toList
def strFormatVersion : List Char := "format version: 1\n".toList
def strSourceReplica : List Char := "source replica: ".toList

/-- Loop of the `merge` branch of `LogEntry::readText`: read part-name lines
until the line `into`.  Fueled to make it a structural recursion; each
iteration consumes at least the newline, so fuel `s.length + 1` is exact. -/
def readPartsToMerge : Nat → List Char → Option (List (List Char) × List Char)
  | 0, _ => none
  | fuel + 1, s =>
    let (line, s1) := readLine s
    match expect [ '\n'] s1 with
    | none => none
    | some s2 =>
      if line = strInto then some ([], s2)
      else
        match readPartsToMerge fuel s2 with
        | none => none
        | some (ps, rest) => some (line :: ps, rest)

/-- The source-part lines of a `merge` record: each name followed by a newline
(the loop body of the `MERGE_PARTS` case of `LogEntry::writeText`). -/
def partsText (ps : List (List Char)) : List Char :=
  (ps.map (fun s => s ++ [ '\n'])).flatten

/-- `LogEntry::writeText` (serialization of a log entry). -/
def writeText (e : LogEntry) : List Char :=
  strFormatVersion ++ strSourceReplica ++ e.source_replica ++ [ '\n'] ++
  (match e.type with
   | .GET_PART => strGet ++ [ '\n'] ++ e.new_part_name
   | .MERGE_PARTS =>
     strMerge ++ [ '\n'] ++ partsText e.parts_to_merge ++
     strInto ++ [ '\n'] ++ e.new_part_name) ++ [ '\n']

/-- `LogEntry::readText`.  Returns the parsed entry and the unconsumed
remainder of the input (the source reads from a buffer and does not itself
assert end-of-input). -/
def readText (s : List Char) : Option (ParsedLogEntry × List Char) :=
  match expect strFormatVersion s with
  | none => none
  | some s =>
    match expect strSourceReplica s with
    | none => none
    | some s =>
      let (source_replica, s) := readLine s
      match expect [ '\n'] s with
      | none => none
      | some s =>
        let (type_str, s) := readLine s
        match expect [ '\n'] s with
        | none => none
        | some s =>
          if type_str = strGet then
            let (name, s) := readLine s
            match expect [ '\n'] s with
            | none => none
            | some s =>
              some ({ type := some .GET_PART, source_replica := source_replica,
                      new_part_name := name, parts_to_merge := [] }, s)
          else if type_str = strMerge then
            match readPartsToMerge (s.length + 1) s with
            | none => none
            | some (ps, s) =>
              let (name, s) := readLine s
              match expect [ '\n'] s with
              | none => none
              | some s =>
                some ({ type := some .MERGE_PARTS, source_replica := source_replica,
                        new_part_name := name, parts_to_merge := ps }, s)
          else
            match expect [ '\n'] s with
            | none => none
            | some s =>
              some ({ type := none, source_replica := source_replica,
                      new_part_name := [], parts_to_merge := [] }, s)

/-- `StorageReplicatedMergeTree::shouldExecuteLogEntry`: a `MERGE_PARTS`
entry is postponed while any of its input parts is in `future_parts`;
everything else (in particular `GET_PART`) is executable. -/
def shouldExecuteLogEntry (future_parts : List (List Char)) (entry : LogEntry) : Bool :=
  if entry.type = .MERGE_PARTS then
    entry.parts_to_merge.all (fun name => !(future_parts.contains name))
  else true

/-! ### Lemmas about the text codec primitives -/

lemma expect_append (pat rest : List Char) : expect pat (pat ++ rest) = some rest := by
  induction pat with
  | nil => rfl
  | cons p ps ih => simp [expect, ih]

lemma expect_eq_some {pat s r : List Char} (h : expect pat s = some r) : s = pat ++ r := by
  induction pat generalizing s with
  | nil => simpa [expect] using h
  | cons p ps ih =>
    cases s with
    | nil => simp [expect] at h
    | cons c cs =>
      by_cases hc : c = p
      · subst hc
        simp only [expect, if_pos rfl] at h
        simpa using ih h
      · simp [expect, hc] at h

lemma expect_newline (t : List Char) : expect [ '\n'] ('\n' :: t) = some t :=
  expect_append [ '\n'] t

lemma takeWhile_line {x : List Char} (r : List Char) (hx : '\n' ∉ x) :
    (x ++ '\n' :: r).takeWhile (fun c => !(c == '\n')) = x := by
  induction x with
  | nil => simp
  | cons a xs ih =>
    have ha : a ≠ '\n' := fun h => hx (h ▸ List.mem_cons_self a xs)
    have hxs : '\n' ∉ xs := fun h => hx (List.mem_cons_of_mem a h)
    simp [List.takeWhile_cons, ha, ih hxs]

lemma dropWhile_line {x : List Char} (r : List Char) (hx : '\n' ∉ x) :
    (x ++ '\n' :: r).dropWhile (fun c => !(c == '\n')) = '\n' :: r := by
  induction x with
  | nil => simp
  | cons a xs ih =>
    have ha : a ≠ '\n' := fun h => hx (h ▸ List.mem_cons_self a xs)
    have hxs : '\n' ∉ xs := fun h => hx (List.mem_cons_of_mem a h)
    simp [List.dropWhile_cons, ha, ih hxs]

lemma readLine_append {x : List Char} (hx : '\n' ∉ x) (r : List Char) :
    readLine (x ++ '\n' :: r) = (x, '\n' :: r) := by
  simp [readLine, takeWhile_line r hx, dropWhile_line r hx]

lemma newline_not_mem_strInto : '\n' ∉ strInto := by decide

lemma newline_not_mem_strMerge : '\n' ∉ strMerge := by decide

lemma length_le_length_partsText (ps : List (List Char)) :
    ps.length ≤ (partsText ps).length := by
  induction ps with
  | nil => simp [partsText]
  | cons p ps ih =>
    simp only [partsText, List.map_cons, List.flatten_cons, List.length_append,
      List.length_cons, List.length_append] at ih ⊢
    omega

/-- The `merge` loop consumes exactly the `into`-free source-part lines in
front of the terminating `into` line, given sufficient fuel. -/
lemma readPartsToMerge_eval (ps : List (List Char)) (rest : List Char) (fuel : Nat)
    (hnl : ∀ p ∈ ps, '\n' ∉ p) (hinto : strInto ∉ ps) (hfuel : ps.length < fuel) :
    readPartsToMerge fuel (partsText ps ++ strInto ++ '\n' :: rest) = some (ps, rest) := by
  induction ps generalizing fuel with
  | nil =>
    cases fuel with
    | zero => omega
    | succ f =>
      simp only [partsText, List.map_nil, List.flatten_nil, List.nil_append]
      rw [readPartsToMerge, readLine_append newline_not_mem_strInto rest]
      simp [expect]
  | cons p ps ih =>
    cases fuel with
    | zero => omega
    | succ f =>
      have hp : '\n' ∉ p := hnl p (List.mem_cons_self p ps)
      have hps : ∀ q ∈ ps, '\n' ∉ q := fun q hq => hnl q (List.mem_cons_of_mem p hq)
      have hpi : p ≠ strInto := fun h => hinto (h ▸ List.mem_cons_self p ps)
      have hpsi : strInto ∉ ps := fun h => hinto (List.mem_cons_of_mem p h)
      rw [readPartsToMerge]
      have harr : partsText (p :: ps) ++ strInto ++ '\n' :: rest =
          p ++ '\n' :: (partsText ps ++ strInto ++ '\n' :: rest) := by
        simp [partsText]
      rw [harr, readLine_append hp _]
      have hrec := ih f hps hpsi (by simp at hfuel; omega)
      rw [List.append_assoc] at hrec
      simp [expect, hpi, hrec]

lemma partsText_append (a b : List (List Char)) :
    partsText (a ++ b) = partsText a ++ partsText b := by
  simp [partsText]

lemma strMerge_ne_strGet : strMerge ≠ strGet := by decide

/-- Evaluation of `readText` on a serialized `MERGE_PARTS` entry whose
source-part list starts with the into-free segment `pre`: the parser consumes
exactly `pre`, then treats the following line as the terminator. -/
lemma readText_writeText_merge (e : LogEntry) (pre : List (List Char)) (tail : List Char)
    (htype : e.type = .MERGE_PARTS)
    (hsrc : '\n' ∉ e.source_replica)
    (hnl : ∀ p ∈ pre, '\n' ∉ p) (hinto : strInto ∉ pre)
    (hsplit : partsText e.parts_to_merge ++ strInto ++ '\n' :: (e.new_part_name ++ [ '\n']) =
      partsText pre ++ strInto ++ '\n' :: tail) :
    readText (writeText e) =
      (match expect [ '\n'] (readLine tail).2 with
       | none => none
       | some s5 =>
         some ({ type := some .MERGE_PARTS, source_replica := e.source_replica,
                 new_part_name := (readLine tail).1, parts_to_merge := pre }, s5)) := by
  simp only [List.append_assoc] at hsplit
  have hb : pre.length < (partsText pre ++ (strInto ++ '\n' :: tail)).length + 1 := by
    have := length_le_length_partsText pre
    simp only [List.length_append]
    omega
  have hEval := readPartsToMerge_eval pre tail _ hnl hinto hb
  simp only [List.append_assoc, List.length_append, List.length_cons] at hEval
  simp [readText, writeText, htype, List.append_assoc, expect_append,
    readLine_append hsrc, readLine_append newline_not_mem_strMerge,
    expect_newline, strMerge_ne_strGet, hsplit, hEval]

/-- C10: `readText` after `writeText` reproduces every `MERGE_PARTS` entry
whose source parts do not contain the literal name `into`; when a source part
is literally named `into`, the parser stops its part-list at that line, so the
parsed part list is the strict prefix before `into` and the entry is not
reproduced.  (Line-oriented fields are newline-free, as part names and replica
names are.) -/
theorem logEntry_codec_roundtrip (e : LogEntry)
    (htype : e.type = .MERGE_PARTS)
    (hsrc : '\n' ∉ e.source_replica)
    (hname : '\n' ∉ e.new_part_name)
    (hparts : ∀ p ∈ e.parts_to_merge, '\n' ∉ p) :
    (strInto ∉ e.parts_to_merge →
      readText (writeText e) =
        some ({ type := some .MERGE_PARTS, source_replica := e.source_replica,
                new_part_name := e.new_part_name, parts_to_merge := e.parts_to_merge }, [])) ∧
    (∀ pre post, e.parts_to_merge = pre ++ strInto :: post → strInto ∉ pre →
      (readText (writeText e)).map (fun v => v.1.parts_to_merge) = some pre ∧
      pre ≠ e.parts_to_merge) := by
  constructor
  · intro hinto
    rw [readText_writeText_merge e e.parts_to_merge (e.new_part_name ++ [ '\n'])
      htype hsrc hparts hinto rfl]
    rw [show e.new_part_name ++ [ '\n'] = e.new_part_name ++ '\n' :: [] from rfl]
    simp [readLine_append hname, expect_newline]
  · intro pre post hPs hpre
    have hprenl : ∀ p ∈ pre, '\n' ∉ p := fun p hp =>
      hparts p (by rw [hPs]; exact List.mem_append_left _ hp)
    have hpostnl : ∀ p ∈ post, '\n' ∉ p := fun p hp =>
      hparts p (by rw [hPs]; exact List.mem_append_right _ (List.mem_cons_of_mem _ hp))
    have hne : pre ≠ e.parts_to_merge := by
      intro hc
      have h2 := congrArg List.length (hc.trans hPs)
      rw [List.length_append, List.length_cons] at h2
      omega
    refine ⟨?_, hne⟩
    cases post with
    | nil =>
      have hsplit2 : partsText e.parts_to_merge ++ strInto ++ '\n' ::
          (e.new_part_name ++ [ '\n']) =
          partsText pre ++ strInto ++ '\n' ::
            (strInto ++ '\n' :: (e.new_part_name ++ [ '\n'])) := by
        rw [hPs]; simp [partsText_append, partsText, List.append_assoc]
      rw [readText_writeText_merge e pre _ htype hsrc hprenl hpre hsplit2]
      simp [readLine_append newline_not_mem_strInto, expect_newline]
    | cons q post2 =>
      have hq : '\n' ∉ q := hpostnl q (List.mem_cons_self _ _)
      have hsplit2 : partsText e.parts_to_merge ++ strInto ++ '\n' ::
          (e.new_part_name ++ [ '\n']) =
          partsText pre ++ strInto ++ '\n' ::
            (q ++ '\n' :: (partsText post2 ++ strInto ++ '\n' ::
              (e.new_part_name ++ [ '\n']))) := by
        rw [hPs]; simp [partsText_append, partsText, List.append_assoc]
      rw [readText_writeText_merge e pre _ htype hsrc hprenl hpre hsplit2]
      simp [readLine_append hq, expect_newline]

def entryRoundW : LogEntry :=
  { type := .MERGE_PARTS, source_replica := "r1".toList,
    new_part_name := "M".toList, parts_to_merge := [ "A".toList, "B".toList] }

def entryIntoW : LogEntry :=
  { type := .MERGE_PARTS, source_replica := "r1".toList,
    new_part_name := "M".toList, parts_to_merge := [ "A".toList, strInto, "B".toList] }

/-- Witness for C10 at concrete entries: a two-part merge round-trips exactly,
and an entry with a source part literally named `into` parses back with the
truncated part list. -/
theorem logEntry_codec_roundtrip_witness :
    readText (writeText entryRoundW) =
      some ({ type := some .MERGE_PARTS, source_replica := "r1".toList,
              new_part_name := "M".toList,
              parts_to_merge := [ "A".toList, "B".toList] }, []) ∧
    (readText (writeText entryIntoW)).map (fun v => v.1.parts_to_merge) =
      some [ "A".toList] ∧
    [ "A".toList] ≠ entryIntoW.parts_to_merge := by
  refine ⟨?_, ?_, by decide⟩
  · exact (logEntry_codec_roundtrip entryRoundW rfl (by decide) (by decide)
      (by decide)).1 (by decide)
  · exact ((logEntry_codec_roundtrip entryIntoW rfl (by decide) (by decide)
      (by decide)).2 [ "A".toList] [ "B".toList] rfl (by decide)).1

def strUnknownKindInput : List Char :=
  "format version: 1\nsource replica: A\nfoo\n\n".toList

/-- C8: `LogEntry::readText` does not reject a record whose kind line is
neither `get` nor `merge`: on input with kind line `foo` followed by the blank
terminator line, parsing returns successfully with the `type` field never
assigned (`none` in this model; an indeterminate enum value in the source). -/
theorem readText_accepts_unknown_kind :
    readText strUnknownKindInput =
      some ({ type := none, source_replica := "A".toList, new_part_name := [],
              parts_to_merge := [] }, []) := by decide

/-- C6: `shouldExecuteLogEntry` holds for every `GET_PART` entry, and holds
for a `MERGE_PARTS` entry exactly when no name in `parts_to_merge` is a member
of `future_parts`. -/
theorem shouldExecuteLogEntry_spec (future_parts : List (List Char)) (entry : LogEntry) :
    (entry.type = .GET_PART → shouldExecuteLogEntry future_parts entry = true) ∧
    (entry.type = .MERGE_PARTS →
      (shouldExecuteLogEntry future_parts entry = true ↔
        ∀ name ∈ entry.parts_to_merge, name ∉ future_parts)) := by
  constructor
  · intro h
    simp [shouldExecuteLogEntry, h]
  · intro h
    simp [shouldExecuteLogEntry, h]

def futureW : List (List Char) := [ "A".toList]

def entryMergeW : LogEntry :=
  { type := .MERGE_PARTS, source_replica := "r".toList,
    new_part_name := "M".toList, parts_to_merge := [ "A".toList, "B".toList] }

def entryGetW : LogEntry :=
  { type := .GET_PART, source_replica := "r".toList,
    new_part_name := "A".toList, parts_to_merge := [] }

/-- Witness for C6: a merge blocked by a future part, and a get entry that is
always executable. -/
theorem shouldExecuteLogEntry_spec_witness :
    shouldExecuteLogEntry futureW entryMergeW = false ∧
    shouldExecuteLogEntry futureW entryGetW = true := by
  constructor
  · have h := (shouldExecuteLogEntry_spec futureW entryMergeW).2 rfl
    cases hb : shouldExecuteLogEntry futureW entryMergeW with
    | false => rfl
    | true =>
      exact absurd (show ("A".toList) ∈ futureW by decide)
        (h.mp hb ("A".toList) (by decide))
  · exact (shouldExecuteLogEntry_spec futureW entryGetW).1 rfl

/-! ### checkParts (bootstrap reconciliation of local parts with the
coordinator's expected part set) -/

/-- Outcome of `checkParts`: success carries the names passed to
`renameAndDetachPart(part, "ignored_")`, in detachment order. -/
inductive CheckPartsResult where
  | ok (detached : List (List Char))
  | errNotFoundExpectedDataPart
  | errTooManyUnexpectedDataParts
deriving DecidableEq, Repr

/-- The scan loop of `checkParts`: walk the local parts, erasing each from the
expected set when present and collecting the unexpected ones in order.
Returns (remaining expected names, unexpected local names). -/
def checkPartsScan : List (List Char) → List (List Char) →
    List (List Char) × List (List Char)
  | expected, [] => (expected, [])
  | expected, p :: ps =>
    if expected.contains p then checkPartsScan (expected.erase p) ps
    else
      let r := checkPartsScan expected ps
      (r.1, p :: r.2)

def strIgnored : List Char := "ignored_".toList

/-- `StorageReplicatedMergeTree::checkParts`.  `expected` is
`getChildren(/replicas/<me>/parts)`, `parts` the local part names. -/
def checkParts (expected : List (List Char)) (parts : List (List Char)) :
    CheckPartsResult :=
  let r := checkPartsScan expected parts
  if r.1 ≠ [] then .errNotFoundExpectedDataPart
  else if r.2.length > 1 then .errTooManyUnexpectedDataParts
  else .ok (r.2.map (fun p => strIgnored ++ p))

lemma filter_erase_expected (expected : List (List Char)) (p : List Char)
    (ps : List (List Char)) (he : expected.Nodup) :
    (expected.erase p).filter (fun e => !(ps.contains e)) =
      expected.filter (fun e => !((p :: ps).contains e)) := by
  induction expected with
  | nil => simp
  | cons x rest ihe =>
    obtain ⟨hx, hrest⟩ := List.nodup_cons.mp he
    by_cases hxp : x = p
    · subst hxp
      rw [List.erase_cons_head]
      rw [List.filter_cons, if_neg (by simp)]
      refine List.filter_congr fun y hy => ?_
      have hyx : y ≠ x := fun h => hx (h ▸ hy)
      simp [hyx]
    · rw [List.erase_cons_tail (by simpa using hxp)]
      simp only [List.filter_cons]
      have hcc : ((p :: ps).contains x) = (ps.contains x) := by simp [hxp]
      rw [hcc, ihe hrest]

lemma filter_unexpected_erase (expected : List (List Char)) (p : List Char)
    (ps : List (List Char)) (he : expected.Nodup) (hmem : p ∈ expected)
    (hpps : p ∉ ps) :
    ps.filter (fun x => !((expected.erase p).contains x)) =
      (p :: ps).filter (fun x => !(expected.contains x)) := by
  rw [List.filter_cons, if_neg (by simp [hmem])]
  refine List.filter_congr ?_
  intro x hx
  have hxp : x ≠ p := fun h => hpps (h ▸ hx)
  have hiff : x ∈ expected.erase p ↔ x ∈ expected :=
    ⟨fun h => ((List.Nodup.mem_erase_iff he).mp h).2,
     fun h => (List.Nodup.mem_erase_iff he).mpr ⟨hxp, h⟩⟩
  simp [hiff]

lemma checkPartsScan_eq (expected parts : List (List Char))
    (he : expected.Nodup) (hp : parts.Nodup) :
    checkPartsScan expected parts =
      (expected.filter (fun e => !(parts.contains e)),
       parts.filter (fun x => !(expected.contains x))) := by
  induction parts generalizing expected with
  | nil => simp [checkPartsScan]
  | cons p ps ih =>
    have hps : ps.Nodup := hp.of_cons
    have hpps : p ∉ ps := (List.nodup_cons.mp hp).1
    by_cases hmem : p ∈ expected
    · rw [checkPartsScan, if_pos (by simpa using hmem)]
      rw [ih (expected.erase p) (he.erase p) hps]
      rw [filter_erase_expected expected p ps he,
          filter_unexpected_erase expected p ps he hmem hpps]
    · rw [checkPartsScan, if_neg (by simpa using hmem)]
      rw [ih expected he hps]
      have h1 : expected.filter (fun e => !(ps.contains e)) =
          expected.filter (fun e => !((p :: ps).contains e)) :=
        List.filter_congr (fun y hy => by
          have hyp : y ≠ p := fun h => hmem (h ▸ hy)
          simp [hyp])
      have h2 : (p :: ps).filter (fun x => !(expected.contains x)) =
          p :: ps.filter (fun x => !(expected.contains x)) := by
        simp [List.filter_cons, hmem]
      rw [h1, h2]

/-- C7: `checkParts`, given the coordinator's expected part set and the local
part set: a part expected but absent locally fails with
NotFoundExpectedDataPart (checked first); otherwise more than one locally
unexpected part fails with TooManyUnexpectedDataParts; exactly one unexpected
part is detached under the `ignored_` prefix and the check succeeds; and
coinciding sets succeed with nothing detached. -/
theorem checkParts_spec (expected parts : List (List Char))
    (he : expected.Nodup) (hp : parts.Nodup) :
    ((∃ e ∈ expected, e ∉ parts) →
        checkParts expected parts = .errNotFoundExpectedDataPart) ∧
    ((∀ e ∈ expected, e ∈ parts) →
      1 < (parts.filter (fun x => !(expected.contains x))).length →
        checkParts expected parts = .errTooManyUnexpectedDataParts) ∧
    (∀ u, (∀ e ∈ expected, e ∈ parts) →
      parts.filter (fun x => !(expected.contains x)) = [u] →
        checkParts expected parts = .ok [strIgnored ++ u]) ∧
    ((∀ e ∈ expected, e ∈ parts) → (∀ x ∈ parts, x ∈ expected) →
        checkParts expected parts = .ok []) := by
  have hs := checkPartsScan_eq expected parts he hp
  refine ⟨?_, ?_, ?_, ?_⟩
  · rintro ⟨e, hee, hep⟩
    have hmem : e ∈ expected.filter (fun x => !(parts.contains x)) :=
      List.mem_filter.mpr ⟨hee, by simp [hep]⟩
    unfold checkParts
    rw [hs]
    rw [if_pos (List.ne_nil_of_mem hmem)]
  · intro hall hlen
    have hnil : expected.filter (fun x => !(parts.contains x)) = [] :=
      List.filter_eq_nil_iff.mpr (fun e hee => by simp [hall e hee])
    unfold checkParts
    rw [hs, hnil]
    rw [if_neg (by simp), if_pos (by simpa using hlen)]
  · intro u hall hone
    have hnil : expected.filter (fun x => !(parts.contains x)) = [] :=
      List.filter_eq_nil_iff.mpr (fun e hee => by simp [hall e hee])
    unfold checkParts
    rw [hs, hnil, hone]
    rw [if_neg (by simp), if_neg (by simp)]
    rfl
  · intro hall hall2
    have hnil : expected.filter (fun x => !(parts.contains x)) = [] :=
      List.filter_eq_nil_iff.mpr (fun e hee => by simp [hall e hee])
    have hnil2 : parts.filter (fun x => !(expected.contains x)) = [] :=
      List.filter_eq_nil_iff.mpr (fun e hee => by simp [hall2 e hee])
    unfold checkParts
    rw [hs, hnil, hnil2]
    rw [if_neg (by simp), if_neg (by simp)]
    rfl

def expectedW : List (List Char) := [ "a".toList]

def partsW : List (List Char) := [ "a".toList, "b".toList]

/-- Witness for C7: expected `{a}`, local `{a, b}`: exactly one unexpected
part `b`, detached as `ignored_b`, and the check succeeds. -/
theorem checkParts_spec_witness :
    checkParts expectedW partsW = .ok [ "ignored_b".toList] := by
  have h := (checkParts_spec expectedW partsW (by decide) (by decide)).2.2.1
    ("b".toList) (by decide) (by decide)
  rw [h]
  decide

/-! ### executeLogEntry: idempotence check and action decision -/

/-- External environment of `executeLogEntry`: the part store's
`getContainingPart` (returns the name of a local part containing the queried
name, if any) and coordinator existence of `/replicas/<me>/parts/<name>`. -/
structure ExecEnv where
  containing : List Char → Option (List Char)
  zkHasPart : List Char → Bool

/-- What `executeLogEntry` decides to do with an entry. -/
inductive ExecAction where
  | skip
  | merge (parts : List (List Char))
  | fetch
deriving DecidableEq, Repr

structure ExecDecision where
  loggedOwnLogBug : Bool
  action : ExecAction
deriving DecidableEq, Repr

/-- The control path of `executeLogEntry` up to its choice of action: the
idempotence check (a containing part exists locally and its node exists in
the coordinator ⇒ early return), the own-log `GET_PART` error log, and the
choice between a local merge and a fetch (`do_fetch`). -/
def executeLogEntryDecision (env : ExecEnv) (replica_name : List Char)
    (entry : LogEntry) : ExecDecision :=
  let skipCase :=
    match env.containing entry.new_part_name with
    | some c => env.zkHasPart c
    | none => false
  if skipCase then { loggedOwnLogBug := false, action := .skip }
  else
    let logged := decide (entry.type = .GET_PART ∧ entry.source_replica = replica_name)
    match entry.type with
    | .GET_PART => { loggedOwnLogBug := logged, action := .fetch }
    | .MERGE_PARTS =>
      if entry.parts_to_merge.all (fun n => decide (env.containing n = some n)) then
        { loggedOwnLogBug := logged, action := .merge entry.parts_to_merge }
      else { loggedOwnLogBug := logged, action := .fetch }

def envNoneW : ExecEnv := { containing := fun _ => none, zkHasPart := fun _ => false }

def entryOwnGetW : LogEntry :=
  { type := .GET_PART, source_replica := "r1".toList,
    new_part_name := "p".toList, parts_to_merge := [] }

/-- Counterexample for C3 as stated: a `GET_PART` entry from this replica's
own log with no containing part is *not* treated as a success with nothing
done — after logging the bug, `executeLogEntry` still sets `do_fetch` and
attempts to fetch the part. -/
theorem executeLogEntry_ownlog_counterexample :
    (executeLogEntryDecision envNoneW ("r1".toList) entryOwnGetW).loggedOwnLogBug
      = true ∧
    (executeLogEntryDecision envNoneW ("r1".toList) entryOwnGetW).action
      = .fetch ∧
    ExecAction.fetch ≠ ExecAction.skip := by
  refine ⟨by decide, by decide, by decide⟩

/-- C3 (amended): if a containing part exists locally and its coordinator
node exists, execution is a no-op success; if the entry is `GET_PART` with
`source_replica` equal to this replica and no containing part exists, the
situation is logged as a bug and a fetch is attempted (not an immediate
no-op). -/
theorem executeLogEntry_idempotence_spec (env : ExecEnv) (replica_name : List Char)
    (entry : LogEntry) :
    (∀ c, env.containing entry.new_part_name = some c → env.zkHasPart c = true →
      executeLogEntryDecision env replica_name entry =
        { loggedOwnLogBug := false, action := .skip }) ∧
    (entry.type = .GET_PART → entry.source_replica = replica_name →
      env.containing entry.new_part_name = none →
      executeLogEntryDecision env replica_name entry =
        { loggedOwnLogBug := true, action := .fetch }) := by
  constructor
  · intro c hc hzk
    simp [executeLogEntryDecision, hc, hzk]
  · intro ht hsrc hc
    simp [executeLogEntryDecision, hc, ht, hsrc]

def envSkipW : ExecEnv :=
  { containing := fun _ => some ("P".toList), zkHasPart := fun _ => true }

/-- Witness for C3 (amended) at concrete inputs: the no-op branch when the
containing part exists everywhere, and the logged-bug fetch branch for an
own-log `GET_PART` with no local part. -/
theorem executeLogEntry_idempotence_spec_witness :
    executeLogEntryDecision envSkipW ("r1".toList) entryOwnGetW =
      { loggedOwnLogBug := false, action := .skip } ∧
    executeLogEntryDecision envNoneW ("r1".toList) entryOwnGetW =
      { loggedOwnLogBug := true, action := .fetch } := by
  constructor
  · exact (executeLogEntry_idempotence_spec envSkipW ("r1".toList) entryOwnGetW).1
      ("P".toList) rfl rfl
  · exact (executeLogEntry_idempotence_spec envNoneW ("r1".toList) entryOwnGetW).2
      rfl rfl rfl

/-! ### canMergeParts (leader merge-selection predicate) -/

/-- Modelled from the spec: the result states of
`AbandonableLockInZooKeeper::check` (its implementation is outside this file);
only `ABANDONED` permits merging across the corresponding block number. -/
inductive LockState where
  | LIVE
  | ABANDONED
  | OTHER
deriving DecidableEq, Repr

/-- A data part as `canMergeParts` sees it: name and block-number range. -/
structure Part where
  name : List Char
  left : Nat
  right : Nat
deriving DecidableEq, Repr

/-- Zero-padding of a number string to width 10 (the `while (size < 10)`
prepend-`'0'` loops in the source). -/
def pad10 (s : List Char) : List Char := List.replicate (10 - s.length) '0' ++ s

def natRepr (n : Nat) : List Char := (Nat.repr n).toList

def strBlockNumbers : List Char := "/block_numbers/block-".toList

def blockNumberPath (zookeeper_path : List Char) (n : Nat) : List Char :=
  zookeeper_path ++ strBlockNumbers ++ pad10 (natRepr n)

/-- `UInt64` modulus; the block-number loop variable is `UInt64`. -/
def U64 : Nat := 2 ^ 64

/-- Context of `canMergeParts`: the table root path, the `currently_merging`
name set, and the external abandonable-lock check. -/
structure MergeCtx where
  zookeeper_path : List Char
  currently_merging : List (List Char)
  check : List Char → LockState

/-- `StorageReplicatedMergeTree::canMergeParts`.  The loop
`for (UInt64 number = left->right + 1; number <= right->left - 1; ++number)`
runs in `UInt64` arithmetic, so both bounds are reduced modulo `2 ^ 64`; the
iteration space is the numbers from `left.right + 1` through
`right.left - 1` inclusive (empty when the start exceeds the end). -/
def canMergeParts (ctx : MergeCtx) (left right : Part) : Bool :=
  if ctx.currently_merging.contains left.name ∨
      ctx.currently_merging.contains right.name then false
  else
    (List.range' ((left.right + 1) % U64)
        ((right.left + (U64 - 1)) % U64 + 1 - (left.right + 1) % U64)).all
      (fun n => decide
        (ctx.check (blockNumberPath ctx.zookeeper_path n) = LockState.ABANDONED))

/-- C4: for parts in block order (`L.right < R.left`, block numbers in the
`UInt64` range), `canMergeParts L R` holds iff neither name is in
`currently_merging` and every strictly intermediate block number carries an
abandoned lock at `/block_numbers/block-<zero-padded n>`. -/
theorem canMergeParts_spec (ctx : MergeCtx) (L R : Part)
    (h1 : L.right < R.left) (h2 : R.left < U64) :
    canMergeParts ctx L R = true ↔
      (L.name ∉ ctx.currently_merging ∧ R.name ∉ ctx.currently_merging ∧
       ∀ n, L.right < n → n < R.left →
         ctx.check (blockNumberPath ctx.zookeeper_path n) = LockState.ABANDONED) := by
  have ha : (L.right + 1) % U64 = L.right + 1 := Nat.mod_eq_of_lt (by omega)
  have hU : 0 < U64 := by norm_num [U64]
  have hb : (R.left + (U64 - 1)) % U64 = R.left - 1 := by
    have h3 : R.left + (U64 - 1) = (R.left - 1) + U64 := by omega
    rw [h3, Nat.add_mod_right]
    exact Nat.mod_eq_of_lt (by omega)
  unfold canMergeParts
  rw [ha, hb]
  by_cases hL : L.name ∈ ctx.currently_merging
  · simp [hL]
  · by_cases hR : R.name ∈ ctx.currently_merging
    · simp [hR]
    · rw [if_neg (by simp [hL, hR])]
      rw [List.all_eq_true]
      constructor
      · intro h
        refine ⟨hL, hR, fun n hn1 hn2 => ?_⟩
        simpa using h n (List.mem_range'_1.mpr ⟨by omega, by omega⟩)
      · rintro ⟨-, -, h⟩ n hn
        obtain ⟨ha1, ha2⟩ := List.mem_range'_1.mp hn
        simpa using h n (by omega) (by omega)

def ctxAbandonedW : MergeCtx :=
  { zookeeper_path := [], currently_merging := [],
    check := fun _ => LockState.ABANDONED }

def partLW : Part := { name := "L".toList, left := 0, right := 3 }

def partRW : Part := { name := "R".toList, left := 6, right := 9 }

/-- Witness for C4 at concrete parts `[0,3]` and `[6,9]` with all
intermediate block locks abandoned and nothing currently merging. -/
theorem canMergeParts_spec_witness :
    canMergeParts ctxAbandonedW partLW partRW = true := by
  exact (canMergeParts_spec ctxAbandonedW partLW partRW
    (show (3:Nat) < 6 by norm_num)
    (show (6:Nat) < U64 by norm_num [U64])).mpr
    ⟨by decide, by decide, fun n hn1 hn2 => rfl⟩

/-! ### Fetch-failure re-prioritization of the queue -/

/-- The search of the first loop of the failure handler in `executeLogEntry`:
is `e` a `MERGE_PARTS` entry whose `parts_to_merge` contains `part_name`? -/
def isMergeContaining (part_name : List Char) (e : LogEntry) : Bool :=
  decide (e.type = .MERGE_PARTS) && e.parts_to_merge.contains part_name

/-- The condition of the second loop of the failure handler: the entry is a
`MERGE_PARTS` or `GET_PART` action whose `new_part_name` is one of the merge's
input parts. -/
def spliceMatch (parts_for_merge : List (List Char)) (e : LogEntry) : Bool :=
  (decide (e.type = .MERGE_PARTS) || decide (e.type = .GET_PART)) &&
    parts_for_merge.contains e.new_part_name

/-- The `queue.splice(queue.end(), …)` loop: walk the queue from the front,
moving entries satisfying `matchP` to the tail, stopping at the first entry
satisfying `stopP` (the merge entry found before the loop; the source stops
at iterator equality with it, which is the first entry satisfying the search
predicate). `moved` accumulates the moved entries in reverse. -/
def spliceLoop (stopP matchP : LogEntry → Bool) :
    List LogEntry → List LogEntry → List LogEntry
  | moved, [] => moved.reverse
  | moved, x :: xs =>
    if stopP x then x :: (xs ++ moved.reverse)
    else if matchP x then spliceLoop stopP matchP (x :: moved) xs
    else x :: spliceLoop stopP matchP moved xs

/-- The failure handler of `executeLogEntry` (the `catch` block around the
fetch): find the first `MERGE_PARTS` entry needing the part that failed to
fetch; if found, move every earlier queued action producing one of that
merge's inputs to the tail of the queue. -/
def handleFailedFetch (queue : List LogEntry) (failed_part : List Char) :
    List LogEntry :=
  match queue.find? (isMergeContaining failed_part) with
  | none => queue
  | some me =>
    spliceLoop (isMergeContaining failed_part) (spliceMatch me.parts_to_merge)
      [] queue

/-- The failure path of `queueThread` after `executeLogEntry` threw during a
fetch: the handler above has run, then the failed entry is pushed onto the
queue tail. -/
def requeueAfterFailure (queue : List LogEntry) (entry : LogEntry) :
    List LogEntry :=
  handleFailedFetch queue entry.new_part_name ++ [entry]

lemma find?_first {α : Type} (p : α → Bool) (before : List α) (m : α)
    (after : List α) (hb : ∀ x ∈ before, p x = false) (hm : p m = true) :
    (before ++ m :: after).find? p = some m := by
  induction before with
  | nil => simp [List.find?_cons, hm]
  | cons x xs ih =>
    have hx : p x = false := hb x (List.mem_cons_self _ _)
    have hxs : ∀ y ∈ xs, p y = false := fun y hy => hb y (List.mem_cons_of_mem _ hy)
    simp [List.find?_cons, hx, ih hxs]

lemma spliceLoop_eval (stopP matchP : LogEntry → Bool) (before : List LogEntry)
    (m : LogEntry) (after moved : List LogEntry)
    (hb : ∀ x ∈ before, stopP x = false) (hm : stopP m = true) :
    spliceLoop stopP matchP moved (before ++ m :: after) =
      before.filter (fun x => !(matchP x)) ++
        m :: (after ++ moved.reverse ++ before.filter matchP) := by
  induction before generalizing moved with
  | nil => simp [spliceLoop, hm]
  | cons x xs ih =>
    have hx : stopP x = false := hb x (List.mem_cons_self _ _)
    have hxs : ∀ y ∈ xs, stopP y = false := fun y hy => hb y (List.mem_cons_of_mem _ hy)
    by_cases hmx : matchP x = true
    · rw [List.cons_append, spliceLoop, if_neg (by simp [hx]), if_pos hmx]
      rw [ih (x :: moved) hxs]
      simp [List.filter_cons, hmx]
    · have hmx2 : matchP x = false := by
        cases hq : matchP x
        · rfl
        · exact absurd hq hmx
      rw [List.cons_append, spliceLoop, if_neg (by simp [hx]), if_neg (by simp [hmx2])]
      rw [ih moved hxs]
      simp [List.filter_cons, hmx2]

/-- C5: when the fetch of a part fails and `M` is the first queued
`MERGE_PARTS` entry with that part among its inputs, after failure handling
the queue consists of the non-input entries that preceded `M`, then `M`, then
the remaining entries, then the moved input-producing entries, then the
failed entry itself: every queued action producing one of `M`'s inputs
appears after `M`, and the failed entry is at the tail. -/
theorem requeueAfterFailure_spec (before after : List LogEntry)
    (M entry : LogEntry)
    (hM1 : M.type = .MERGE_PARTS)
    (hM2 : entry.new_part_name ∈ M.parts_to_merge)
    (hfirst : ∀ x ∈ before, isMergeContaining entry.new_part_name x = false) :
    requeueAfterFailure (before ++ M :: after) entry =
      before.filter (fun x => !(spliceMatch M.parts_to_merge x)) ++
        M :: (after ++ before.filter (spliceMatch M.parts_to_merge) ++ [entry]) ∧
    (∀ x ∈ before.filter (fun x => !(spliceMatch M.parts_to_merge x)),
      x.new_part_name ∉ M.parts_to_merge) ∧
    (after ++ before.filter (spliceMatch M.parts_to_merge) ++ [entry]).getLast? =
      some entry := by
  have hm : isMergeContaining entry.new_part_name M = true := by
    simp [isMergeContaining, hM1, hM2]
  refine ⟨?_, ?_, ?_⟩
  · unfold requeueAfterFailure handleFailedFetch
    rw [find?_first _ before M after hfirst hm]
    show spliceLoop (isMergeContaining entry.new_part_name)
        (spliceMatch M.parts_to_merge) [] (before ++ M :: after) ++ [entry] = _
    rw [spliceLoop_eval _ _ before M after [] hfirst hm]
    simp
  · intro x hx
    have hcond := List.of_mem_filter hx
    intro hmem
    have htype : (decide (x.type = EntryType.MERGE_PARTS) ||
        decide (x.type = EntryType.GET_PART)) = true := by
      cases hx2 : x.type <;> simp
    simp [spliceMatch, htype, hmem] at hcond
  · have h3 : after ++ before.filter (spliceMatch M.parts_to_merge) ++ [entry] =
        (after ++ before.filter (spliceMatch M.parts_to_merge)) ++ [entry] := by
      simp
    rw [h3, List.getLast?_concat]

def entGetA : LogEntry :=
  { type := .GET_PART, source_replica := "r2".toList,
    new_part_name := "A".toList, parts_to_merge := [] }

def entGetB : LogEntry :=
  { type := .GET_PART, source_replica := "r2".toList,
    new_part_name := "B".toList, parts_to_merge := [] }

def entGetC : LogEntry :=
  { type := .GET_PART, source_replica := "r2".toList,
    new_part_name := "C".toList, parts_to_merge := [] }

def entMergeM : LogEntry :=
  { type := .MERGE_PARTS, source_replica := "r1".toList,
    new_part_name := "M".toList,
    parts_to_merge := [ "A".toList, "B".toList] }

/-- Witness for C5: queue `[GET B, MERGE(A,B)→M, GET C]`, failed fetch of
`A`: the handler yields `[MERGE, GET C, GET B, GET A]` — both input fetches
after the merge, failed entry at the tail (scenario S5 of the spec). -/
theorem requeueAfterFailure_spec_witness :
    requeueAfterFailure [ entGetB, entMergeM, entGetC] entGetA =
      [ entMergeM, entGetC, entGetB, entGetA] := by
  have h := (requeueAfterFailure_spec [ entGetB] [ entGetC] entMergeM entGetA
    rfl (by decide) (by decide)).1
  rw [show ([ entGetB] ++ entMergeM :: [ entGetC]) =
    [ entGetB, entMergeM, entGetC] from rfl] at h
  rw [h]
  decide

/-! ### pullLogsToQueue: the order in which peer log entries are merged -/

/-- The `LogIterator` of `pullLogsToQueue`: a cursor into one peer's log,
carrying the czxid (`timestamp`) and text of the record at `index`.
`operator<` compares `timestamp`, and the iterators sit in a
`std::priority_queue` — which pops its *largest* element first. -/
structure LogIterator where
  replica : List Char
  index : Nat
  timestamp : Int
  entry_str : List Char
deriving DecidableEq, Repr

/-- `LogIterator::operator<`. -/
def logIteratorLt (a b : LogIterator) : Bool := a.timestamp < b.timestamp

/-- `priority_queue.top()`: the maximum element under `operator<`
(`std::priority_queue` with `std::less` is a max-heap).  Ties are broken
arbitrarily by the heap; this model keeps the earlier of equal elements. -/
def pqTop : List LogIterator → Option LogIterator
  | [] => none
  | x :: xs => some (xs.foldl (fun best it => if logIteratorLt best it then it else best) x)

/-- `LogIterator::readEntry`: read `/replicas/<r>/log/log-<idx>`, obtaining
its czxid and contents.  Peer logs are modelled as lists indexed by the log
index; `none` is an absent node. -/
def readEntryAt (logs : List Char → List (Int × List Char)) (r : List Char)
    (i : Nat) : Option (Int × List Char) :=
  (logs r).get? i

/-- The drain loop of `pullLogsToQueue`: pop the `priority_queue`'s top
iterator, record its entry as inserted into the queue, advance the iterator
and push it back if its peer's log has a next record.  Returns the `(czxid,
entry)` pairs in queue-insertion order.  Fueled (one unit per inserted
entry); any fuel at least the total number of log records is exact. -/
def pullLoop (logs : List Char → List (Int × List Char)) :
    Nat → List LogIterator → List (Int × List Char) → List (Int × List Char)
  | 0, _, acc => acc.reverse
  | fuel + 1, pq, acc =>
    match pqTop pq with
    | none => acc.reverse
    | some it =>
      let rest := pq.erase it
      let acc2 := (it.timestamp, it.entry_str) :: acc
      match readEntryAt logs it.replica (it.index + 1) with
      | some (t, e) =>
        pullLoop logs fuel (⟨it.replica, it.index + 1, t, e⟩ :: rest) acc2
      | none => pullLoop logs fuel rest acc2

/-- Initial heap contents: one iterator per replica whose log has a record at
that replica's log pointer. -/
def initIterators (logs : List Char → List (Int × List Char))
    (replicas : List (List Char)) (pointers : List Char → Nat) :
    List LogIterator :=
  replicas.filterMap (fun r =>
    match readEntryAt logs r (pointers r) with
    | some (t, e) => some ⟨r, pointers r, t, e⟩
    | none => none)

/-- The queue-insertion order produced by one invocation of
`pullLogsToQueue`. -/
def pullLogsOrder (logs : List Char → List (Int × List Char))
    (replicas : List (List Char)) (pointers : List Char → Nat) (fuel : Nat) :
    List (Int × List Char) :=
  pullLoop logs fuel (initIterators logs replicas pointers) []

def logsC1 : List Char → List (Int × List Char) :=
  fun r =>
    if r = ("A".toList) then [ ((2 : Int), "ea".toList)]
    else if r = ("B".toList) then [ ((1 : Int), "eb".toList)]
    else []

/-- C1: with peer `A` holding one log record of czxid 2 and peer `B` one of
czxid 1 (both pointers at 0), `pullLogsToQueue` inserts the czxid-2 entry
*before* the czxid-1 entry: `std::priority_queue` under
`LogIterator::operator<` pops the latest czxid first, so the insertion order
is not non-decreasing in czxid, contrary to the chronological merge the
code's own comment and the spec describe. -/
theorem pullLogsOrder_latest_first :
    pullLogsOrder logsC1 [ "A".toList, "B".toList] (fun _ => 0) 4 =
      [ ((2 : Int), "ea".toList), ((1 : Int), "eb".toList)] ∧
    ¬ List.Chain' (fun p q : Int × List Char => p.1 ≤ q.1)
      [ ((2 : Int), "ea".toList), ((1 : Int), "eb".toList)] := by
  constructor
  · decide
  · simp [List.chain'_cons]

/-! ### Atomicity of the queue-insertion multi of pullLogsToQueue -/

/-- Coordinator operations used by the queue-insertion `multi`:
persistent-sequential create under a directory, and `setData` with version
`-1` (which requires the node to exist). -/
inductive ZkOp where
  | createSeq (dir : List Char) (contents : List Char)
  | setData (path : List Char) (value : List Char)

/-- Coordinator state, restricted to what the two operations touch:
sequential children per directory (in creation order) and plain node data. -/
structure ZkState where
  seqNodes : List Char → List (List Char)
  data : List Char → Option (List Char)

/-- One coordinator operation.  `createSeq` always succeeds (the coordinator
assigns a fresh sequential name); `setData` fails when the node is absent. -/
def applyOp (st : ZkState) : ZkOp → Option ZkState
  | .createSeq dir contents =>
    some { st with
      seqNodes := fun d => if d = dir then st.seqNodes d ++ [contents] else st.seqNodes d }
  | .setData path value =>
    match st.data path with
    | some _ =>
      some { st with
        data := fun p => if p = path then some value else st.data p }
    | none => none

/-- `zookeeper.multi`: apply the batch atomically — if any operation fails,
no new state is produced (the caller observes the original state). -/
def applyMulti (st : ZkState) : List ZkOp → Option ZkState
  | [] => some st
  | op :: ops =>
    match applyOp st op with
    | some st2 => applyMulti st2 ops
    | none => none

def strQueuePrefix : List Char := "/queue/queue-".toList
def strLogPointers : List Char := "/log_pointers/".toList

def queueDir (replica_path : List Char) : List Char := replica_path ++ strQueuePrefix

def logPointerPath (replica_path peer : List Char) : List Char :=
  replica_path ++ strLogPointers ++ peer

/-- The two operations `pullLogsToQueue` puts into one `multi` for each
pulled entry: create `/replicas/<me>/queue/queue-` (persistent-sequential)
with the entry text, and set `/log_pointers/<peer>` to `idx + 1`. -/
def pullEntryOps (replica_path peer entry_str : List Char) (idx : Nat) :
    List ZkOp :=
  [ .createSeq (queueDir replica_path) entry_str,
    .setData (logPointerPath replica_path peer) (natRepr (idx + 1))]

/-- The coordinator effect of pulling one entry. -/
def pullEntryMulti (st : ZkState) (replica_path peer entry_str : List Char)
    (idx : Nat) : Option ZkState :=
  applyMulti st (pullEntryOps replica_path peer entry_str idx)

/-- C2: the queue-node creation and the log-pointer advancement for a pulled
entry form one atomic `multi`: when it succeeds, the new state has both the
queue node appended and the pointer set to `idx + 1` (and nothing else
changed); when it fails — only possible because the pointer node is absent —
no state is produced at all, so the pointer is not advanced and no queue node
is created. -/
theorem pullEntryMulti_atomic (st : ZkState)
    (replica_path peer entry_str : List Char) (idx : Nat)
    (hp : (pullEntryMulti st replica_path peer entry_str idx).isSome = true) :
    ((pullEntryMulti st replica_path peer entry_str idx).get hp).seqNodes
        (queueDir replica_path) =
      st.seqNodes (queueDir replica_path) ++ [entry_str] ∧
    ((pullEntryMulti st replica_path peer entry_str idx).get hp).data
        (logPointerPath replica_path peer) = some (natRepr (idx + 1)) ∧
    (∀ p, p ≠ logPointerPath replica_path peer →
      ((pullEntryMulti st replica_path peer entry_str idx).get hp).data p =
        st.data p) ∧
    (∀ d, d ≠ queueDir replica_path →
      ((pullEntryMulti st replica_path peer entry_str idx).get hp).seqNodes d =
        st.seqNodes d) := by
  cases hd : st.data (logPointerPath replica_path peer) with
  | none =>
    exfalso
    simp [pullEntryMulti, pullEntryOps, applyMulti, applyOp, hd] at hp
  | some v =>
    have heq : pullEntryMulti st replica_path peer entry_str idx =
        some { seqNodes := fun d =>
                 if d = queueDir replica_path then st.seqNodes d ++ [entry_str]
                 else st.seqNodes d,
               data := fun p =>
                 if p = logPointerPath replica_path peer
                 then some (natRepr (idx + 1)) else st.data p } := by
      simp [pullEntryMulti, pullEntryOps, applyMulti, applyOp, hd]
    refine ⟨?_, ?_, ?_, ?_⟩ <;> simp only [heq, Option.get_some]
    · simp
    · simp
    · intro p hpp
      simp [hpp]
    · intro d hdd
      simp [hdd]

def zkStW : ZkState :=
  { seqNodes := fun _ => [],
    data := fun p =>
      if p = logPointerPath ("/replicas/r2".toList) ("r1".toList)
      then some (natRepr 0) else none }

lemma zkStW_isSome :
    (pullEntryMulti zkStW ("/replicas/r2".toList) ("r1".toList)
      ("entry".toList) 0).isSome = true := by
  rfl

/-- Witness for C2 at a concrete state holding the pointer node: the multi
succeeds, appends the queue node, and advances the pointer to 1. -/
theorem pullEntryMulti_atomic_witness :
    ((pullEntryMulti zkStW ("/replicas/r2".toList) ("r1".toList)
        ("entry".toList) 0).get zkStW_isSome).seqNodes
      (queueDir ("/replicas/r2".toList)) = [ "entry".toList] ∧
    ((pullEntryMulti zkStW ("/replicas/r2".toList) ("r1".toList)
        ("entry".toList) 0).get zkStW_isSome).data
      (logPointerPath ("/replicas/r2".toList) ("r1".toList)) =
        some (natRepr 1) := by
  have h := pullEntryMulti_atomic zkStW ("/replicas/r2".toList) ("r1".toList)
    ("entry".toList) 0 zkStW_isSome
  exact ⟨h.1, h.2.1⟩

/-! ### Table metadata: createTable's serialization and checkTableStructure -/

/-- The backquote character (code point 96). -/
def bq : Char := Char.ofNat 96

/-- Modelled from the spec: the engine's back-quoting of column names
(`writeBackQuotedString`, implemented outside this file).  The name is
wrapped in backquotes with backquote and backslash escaped by a backslash;
the metadata contract demands bit-exact round-trips, so the reader below
accepts exactly this encoding. -/
def escapeBQ : List Char → List Char
  | [] => []
  | c :: cs =>
    if c = bq ∨ c = '\\' then '\\' :: c :: escapeBQ cs else c :: escapeBQ cs

def backQuoted (name : List Char) : List Char := bq :: (escapeBQ name ++ [bq])

/-- Modelled from the spec: `readBackQuotedString` after its opening
backquote — read characters up to the closing backquote, resolving the two
escape sequences, rejecting anything else. -/
def rbqAux : List Char → Option (List Char × List Char)
  | [] => none
  | c :: rest =>
    if c = bq then some ([], rest)
    else if c = '\\' then
      match rest with
      | [] => none
      | d :: rest2 =>
        if d = bq ∨ d = '\\' then
          match rbqAux rest2 with
          | none => none
          | some (n, r) => some (d :: n, r)
        else none
    else
      match rbqAux rest with
      | none => none
      | some (n, r) => some (c :: n, r)

/-- Modelled from the spec: `readBackQuotedString`. -/
def readBackQuoted : List Char → Option (List Char × List Char)
  | [] => none
  | c :: rest => if c = bq then rbqAux rest else none

lemma rbqAux_encode (n rest : List Char) :
    rbqAux (escapeBQ n ++ bq :: rest) = some (n, rest) := by
  induction n with
  | nil =>
    simp only [escapeBQ, List.nil_append]
    rw [rbqAux.eq_def]
    simp
  | cons c cs ih =>
    by_cases hc : c = bq ∨ c = '\\'
    · have hbs : ¬('\\' = bq) := by decide
      have harr : escapeBQ (c :: cs) ++ bq :: rest =
          '\\' :: c :: (escapeBQ cs ++ bq :: rest) := by
        simp [escapeBQ, hc]
      rw [harr, rbqAux.eq_def]
      simp [hbs, hc, ih]
    · push_neg at hc
      have harr : escapeBQ (c :: cs) ++ bq :: rest =
          c :: (escapeBQ cs ++ bq :: rest) := by
        simp [escapeBQ, hc.1, hc.2]
      rw [harr, rbqAux.eq_def]
      simp [hc.1, hc.2, ih]

lemma rbqAux_sound : ∀ (s n r : List Char),
    rbqAux s = some (n, r) → s = escapeBQ n ++ bq :: r := by
  intro s
  induction s using rbqAux.induct with
  | case1 =>
    intro n r h
    rw [rbqAux.eq_def] at h
    simp at h
  | case2 rest2 =>
    intro n r h
    rw [rbqAux.eq_def] at h
    simp at h
    obtain ⟨h1, h2⟩ := h
    subst h1
    subst h2
    simp [escapeBQ]
  | case3 hne =>
    intro n r h
    rw [rbqAux.eq_def] at h
    simp [hne] at h
  | case4 d rest2 hd hrec hne ih =>
    intro n r h
    rw [rbqAux.eq_def] at h
    simp [hd, hne, hrec] at h
  | case5 d rest2 hd n0 r0 hrec hne ih =>
    intro n r h
    rw [rbqAux.eq_def] at h
    simp [hd, hne, hrec] at h
    obtain ⟨h1, h2⟩ := h
    subst h1
    subst h2
    simp [escapeBQ, hd, ih n0 r0 hrec]
  | case6 d rest2 hd hne =>
    intro n r h
    rw [rbqAux.eq_def] at h
    simp [hd, hne] at h
  | case7 d rest2 hd1 hd2 hrec ih =>
    intro n r h
    rw [rbqAux.eq_def] at h
    simp [hd1, hd2, hrec] at h
  | case8 d rest2 hd1 hd2 n0 r0 hrec ih =>
    intro n r h
    rw [rbqAux.eq_def] at h
    simp [hd1, hd2, hrec] at h
    obtain ⟨h1, h2⟩ := h
    subst h1
    subst h2
    have hcls : ¬(d = bq ∨ d = '\\') := by
      rintro (hh | hh)
      · exact hd1 hh
      · exact hd2 hh
    simp [escapeBQ, hcls, ih n0 r0 hrec]

lemma readBackQuoted_encode (n rest : List Char) :
    readBackQuoted (backQuoted n ++ rest) = some (n, rest) := by
  have h : backQuoted n ++ rest = bq :: (escapeBQ n ++ bq :: rest) := by
    simp [backQuoted]
  rw [h]
  simp [readBackQuoted, rbqAux_encode]

lemma readBackQuoted_sound {s n r : List Char}
    (h : readBackQuoted s = some (n, r)) : s = backQuoted n ++ r := by
  cases s with
  | nil => simp [readBackQuoted] at h
  | cons c rest =>
    by_cases hc : c = bq
    · subst hc
      simp only [readBackQuoted, if_pos rfl] at h
      have := rbqAux_sound rest n r h
      simp [backQuoted, this]
    · simp [readBackQuoted, hc] at h

/-- The table parameters serialized by `createTable` and re-checked by
`checkTableStructure`.  `sampling_expression` and `primary_key` hold the
`formattedAST` output (an opaque string to this core); `mode` is the integer
value of the storage mode enum. -/
structure TableParams where
  date_column_name : List Char
  sampling_expression : List Char
  index_granularity : Nat
  mode : Nat
  sign_column : List Char
  primary_key : List Char
  columns : List (List Char × List Char)

def strMetaV : List Char := "metadata format version: 1".toList
def strDateCol : List Char := "\ndate column: ".toList
def strSampling : List Char := "\nsampling expression: ".toList
def strGranularity : List Char := "\nindex granularity: ".toList
def strModeKey : List Char := "\nmode: ".toList
def strSign : List Char := "\nsign column: ".toList
def strPrimary : List Char := "\nprimary key: ".toList
def strColumnsKey : List Char := "\ncolumns:\n".toList

/-- One `name type` line of the column list, as `createTable` writes it
(back-quoted name, space, type name, newline). -/
def columnLine (n t : List Char) : List Char :=
  backQuoted n ++ [ ' '] ++ t ++ [ '\n']

def columnsText (cols : List (List Char × List Char)) : List Char :=
  (cols.map (fun c => columnLine c.1 c.2)).flatten

/-- The metadata text `createTable` writes to `/metadata`.  The source emits
`"metadata format version: 1" << endl << "date column: " << … `; the
concatenation is regrouped here around the `"\n<key>: "` separators that
`checkTableStructure` asserts, which denotes the same byte string. -/
def metadataText (p : TableParams) : List Char :=
  strMetaV ++ strDateCol ++ p.date_column_name ++
  strSampling ++ p.sampling_expression ++
  strGranularity ++ natRepr p.index_granularity ++
  strModeKey ++ natRepr p.mode ++
  strSign ++ p.sign_column ++
  strPrimary ++ p.primary_key ++
  strColumnsKey ++ columnsText p.columns

/-- The per-column loop of `checkTableStructure`: read a back-quoted name,
compare it with the expected column name (UNKNOWN_IDENTIFIER on mismatch),
then assert a space, the type name, and a newline. -/
def checkColumns : List (List Char × List Char) → List Char →
    Option (List Char)
  | [], s => some s
  | (n, t) :: cols, s =>
    match readBackQuoted s with
    | none => none
    | some (name, s1) =>
      if name = n then
        match expect [ ' '] s1 with
        | none => none
        | some s2 =>
          match expect t s2 with
          | none => none
          | some s3 =>
            match expect [ '\n'] s3 with
            | none => none
            | some s4 => checkColumns cols s4
      else none

/-- A sequence of `assertString` calls, one per listed segment. -/
def expectSeq : List (List Char) → List Char → Option (List Char)
  | [], s => some s
  | pat :: pats, s =>
    match expect pat s with
    | none => none
    | some s2 => expectSeq pats s2

/-- The segments asserted by the header part of `checkTableStructure`, in the
source's `assertString` order (fixed key text alternating with the locally
computed values). -/
def headerSegments (p : TableParams) : List (List Char) :=
  [ strMetaV, strDateCol, p.date_column_name, strSampling,
    p.sampling_expression, strGranularity, natRepr p.index_granularity,
    strModeKey, natRepr p.mode, strSign, p.sign_column, strPrimary,
    p.primary_key, strColumnsKey]

/-- `StorageReplicatedMergeTree::checkTableStructure` as an `Option`-valued
assertion chain: the header `assertString`s, the per-column loop, then
`assertEOF`. -/
def checkTableStructureO (p : TableParams) (s : List Char) : Option Unit :=
  match expectSeq (headerSegments p) s with
  | none => none
  | some s2 =>
    match checkColumns p.columns s2 with
    | none => none
    | some s3 => if s3 = [] then some () else none

/-- `checkTableStructure`: `true` = the metadata check passed, `false` = an
exception was thrown. -/
def checkTableStructure (p : TableParams) (metadata_str : List Char) : Bool :=
  (checkTableStructureO p metadata_str).isSome

lemma expect_single (c : Char) (t : List Char) : expect [c] (c :: t) = some t :=
  expect_append [c] t

lemma checkColumns_encode (cols : List (List Char × List Char))
    (r : List Char) : checkColumns cols (columnsText cols ++ r) = some r := by
  induction cols with
  | nil => simp [columnsText, checkColumns]
  | cons c cols ih =>
    obtain ⟨n, t⟩ := c
    have harr : columnsText ((n, t) :: cols) ++ r =
        backQuoted n ++ (( ' ') :: (t ++ ('\n') :: (columnsText cols ++ r))) := by
      simp [columnsText, columnLine]
    rw [harr, checkColumns, readBackQuoted_encode]
    simp [expect_single, expect_append, ih]

lemma checkColumns_sound (cols : List (List Char × List Char)) :
    ∀ (s r : List Char), checkColumns cols s = some r →
      s = columnsText cols ++ r := by
  induction cols with
  | nil =>
    intro s r h
    simp [checkColumns] at h
    simp [columnsText, h]
  | cons c cols ih =>
    obtain ⟨n, t⟩ := c
    intro s r h
    rw [checkColumns] at h
    split at h
    · exact absurd h (by simp)
    · rename_i name s1 hrb
      split at h
      · rename_i hname
        subst hname
        split at h
        · exact absurd h (by simp)
        · rename_i s2 h1
          split at h
          · exact absurd h (by simp)
          · rename_i s3 h2
            split at h
            · exact absurd h (by simp)
            · rename_i s4 h3
              have e0 := readBackQuoted_sound hrb
              have e1 := expect_eq_some h1
              have e2 := expect_eq_some h2
              have e3 := expect_eq_some h3
              have e4 := ih s4 r h
              subst e4
              subst e3
              subst e2
              subst e1
              subst e0
              simp [columnsText, columnLine]
      · exact absurd h (by simp)

lemma expectSeq_append (pats : List (List Char)) (r : List Char) :
    expectSeq pats (pats.flatten ++ r) = some r := by
  induction pats with
  | nil => simp [expectSeq]
  | cons pat pats ih =>
    have harr : (pat :: pats).flatten ++ r = pat ++ (pats.flatten ++ r) := by
      simp
    rw [harr, expectSeq, expect_append]
    exact ih

lemma expectSeq_sound (pats : List (List Char)) :
    ∀ (s r : List Char), expectSeq pats s = some r → s = pats.flatten ++ r := by
  induction pats with
  | nil =>
    intro s r h
    simp [expectSeq] at h
    simp [h]
  | cons pat pats ih =>
    intro s r h
    rw [expectSeq] at h
    split at h
    · exact absurd h (by simp)
    · rename_i s2 h1
      have e1 := expect_eq_some h1
      have e2 := ih s2 r h
      subst e2
      subst e1
      simp

lemma metadataText_eq (p : TableParams) :
    metadataText p = (headerSegments p).flatten ++ columnsText p.columns := by
  simp [metadataText, headerSegments]

/-- C9: `checkTableStructure` succeeds exactly on the byte string that
`createTable` writes to `/metadata` for the same table definition, and fails
on every other string — in particular on any single-character change and on
any column-order change that alters the text. -/
theorem checkTableStructure_spec (p : TableParams) (s : List Char) :
    (checkTableStructure p s = true ↔ s = metadataText p) ∧
    (∀ s2, s2 ≠ metadataText p → checkTableStructure p s2 = false) := by
  have main : ∀ s0, checkTableStructure p s0 = true ↔ s0 = metadataText p := by
    intro s0
    constructor
    · intro h
      unfold checkTableStructure at h
      cases hO : checkTableStructureO p s0 with
      | none => rw [hO] at h; simp at h
      | some u =>
        unfold checkTableStructureO at hO
        split at hO
        · exact absurd hO (by simp)
        · rename_i s2 h1
          split at hO
          · exact absurd hO (by simp)
          · rename_i s3 h2
            split at hO
            · rename_i h3
              subst h3
              have e1 := expectSeq_sound _ _ _ h1
              have e2 := checkColumns_sound _ _ _ h2
              subst e2
              subst e1
              simp [metadataText_eq]
            · exact absurd hO (by simp)
    · intro h
      subst h
      unfold checkTableStructure checkTableStructureO
      rw [metadataText_eq, expectSeq_append]
      have hcc : checkColumns p.columns (columnsText p.columns) = some [] := by
        have hc2 := checkColumns_encode p.columns []
        simpa using hc2
      simp [hcc]
  refine ⟨main s, fun s2 hne => ?_⟩
  cases hb : checkTableStructure p s2 with
  | false => rfl
  | true => exact absurd ((main s2).mp hb) hne

def tpW : TableParams :=
  { date_column_name := "d".toList, sampling_expression := [],
    index_granularity := 1, mode := 0, sign_column := [],
    primary_key := "x".toList,
    columns := [ ( "a".toList, "UInt8".toList), ( "b".toList, "UInt16".toList)] }

def tpW2 : TableParams :=
  { tpW with
    columns := [ ( "b".toList, "UInt16".toList), ( "a".toList, "UInt8".toList)] }

/-- Witness for C9: the check passes on the exact serialization of a concrete
two-column table and fails on the serialization with the two columns
swapped. -/
theorem checkTableStructure_spec_witness :
    checkTableStructure tpW (metadataText tpW) = true ∧
    checkTableStructure tpW (metadataText tpW2) = false := by
  constructor
  · exact (checkTableStructure_spec tpW (metadataText tpW)).1.mpr rfl
  · exact (checkTableStructure_spec tpW (metadataText tpW)).2
      (metadataText tpW2) (by decide)

end SRMT
